import Mathlib

/-!
Shallow embedding of the dynamics-compressor core of the CompressorAndSplit
repository (`Source/PluginProcessor.h` / `Source/PluginProcessor.cpp`), with the
envelope detector modelled abstractly where its source file is absent.

Floating-point samples, dB values and gains are modelled as rationals for the
computable part of the arithmetic; the final `pow (10.0, yG / 20.0)` conversion
to a linear gain is modelled with the real power function.
-/

namespace Compreezor

/-- Modelled from the spec: the repository calls `lagrpol (&x[0], &y[0], 2, d)`,
a 2-point Lagrange polynomial interpolation, but the file defining `lagrpol` is
not among the sources.  The spec describes it as "interpolate the effective
slope via a 2-point polynomial (Lagrange) fit between the two knee boundary
points"; this is the standard 2-point Lagrange formula
`y0 * (t - x1) / (x0 - x1) + y1 * (t - x0) / (x1 - x0)`. -/
def lagrpol2 (x0 x1 y0 y1 t : ℚ) : ℚ :=
  y0 * (t - x1) / (x0 - x1) + y1 * (t - x0) / (x1 - x0)

/-- The dB-domain part of `CompreezorAudioProcessor::calcCompressorGain`
(PluginProcessor.cpp lines 192-210): compute the slope `CS = 1 - 1/ratio`,
replace it by the Lagrange-interpolated slope inside an open knee region when
the knee width is positive, multiply by `threshold - detectorValue`, and clamp
with `jmin (0, yG)`.  Returns the clamped gain reduction `yG` in dB. -/
def calcCompressorReductionDb (fDetectorValue fThreshold fRatio fKneeWidth : ℚ) : ℚ :=
  let CS0 : ℚ := 1 - 1 / fRatio
  let CS : ℚ :=
    if 0 < fKneeWidth ∧ fThreshold - fKneeWidth / 2 < fDetectorValue ∧
        fDetectorValue < fThreshold + fKneeWidth / 2 then
      lagrpol2 (fThreshold - fKneeWidth / 2) (min 0 (fThreshold + fKneeWidth / 2))
        0 CS0 fDetectorValue
    else CS0
  min 0 (CS * (fThreshold - fDetectorValue))

/-- `pow (10.0, yG / 20.0f)` of PluginProcessor.cpp line 211: dB to linear. -/
noncomputable def linearGainOfDb (yG : ℚ) : ℝ :=
  (10 : ℝ) ^ ((yG : ℝ) / 20)

/-- `CompreezorAudioProcessor::calcCompressorGain` (PluginProcessor.cpp lines
192-212).  The `bLimit` argument is accepted and ignored, as in the source. -/
noncomputable def calcCompressorGain (fDetectorValue fThreshold fRatio fKneeWidth : ℚ)
    (bLimit : Bool) : ℝ :=
  linearGainOfDb (calcCompressorReductionDb fDetectorValue fThreshold fRatio fKneeWidth)

/-- The hard-knee static curve (the `else` path of `calcCompressorGain`):
`jmin (0, CS * (threshold - detectorValue))`. -/
def hardKneeReductionDb (fDetectorValue fThreshold fRatio : ℚ) : ℚ :=
  min 0 ((1 - 1 / fRatio) * (fThreshold - fDetectorValue))

/-- The interpolated slope used inside the knee region (PluginProcessor.cpp
lines 199-206): Lagrange fit between `(threshold - knee/2, 0)` and
`(min (0, threshold + knee/2), CS)`. -/
def softKneeSlope (fDetectorValue fThreshold fRatio fKneeWidth : ℚ) : ℚ :=
  lagrpol2 (fThreshold - fKneeWidth / 2) (min 0 (fThreshold + fKneeWidth / 2))
    0 (1 - 1 / fRatio) fDetectorValue

/-- The soft-knee static curve: the clamped reduction computed with the
interpolated slope. -/
def softKneeReductionDb (fDetectorValue fThreshold fRatio fKneeWidth : ℚ) : ℚ :=
  min 0 (softKneeSlope fDetectorValue fThreshold fRatio fKneeWidth *
    (fThreshold - fDetectorValue))

/-- Modelled from the spec: the configuration of a `CEnvelopeDetector`
(`EnvelopeDetector.h` is included by `PluginProcessor.h` but its source is not
among the repository files).  Per the spec's data model: sample rate, attack and
release time constants in milliseconds, time-constant mode (analogue when
true), detection mode (peak / mean-square / RMS) and a log-domain flag. -/
structure DetectorConfig where
  sampleRate : ℚ
  attackMs : ℚ
  releaseMs : ℚ
  analogTC : Bool
  detectMode : ℕ
  logDomain : Bool
deriving DecidableEq, Repr

/-- Modelled from the spec: the state of a `CEnvelopeDetector`: its
configuration plus the running envelope value, which persists across calls. -/
structure DetectorState where
  config : DetectorConfig
  envelope : ℚ
deriving DecidableEq, Repr

/-- Detection-mode code `DETECT_MODE_PEAK` (PluginProcessor.h line 78). -/
def DETECT_MODE_PEAK : ℕ := 0
/-- Detection-mode code `DETECT_MODE_MS` (PluginProcessor.h line 79). -/
def DETECT_MODE_MS : ℕ := 1
/-- Detection-mode code `DETECT_MODE_RMS` (PluginProcessor.h line 80). -/
def DETECT_MODE_RMS : ℕ := 2

/-- Modelled from the spec: `CEnvelopeDetector::init (sampleRate, attackMs,
releaseMs, analogueMode, detectMode, logDomain)` "configures/resets the
filter": it installs the given configuration and resets the running
envelope. -/
def CEnvelopeDetector.init (sampleRate attackMs releaseMs : ℚ) (analogTC : Bool)
    (detectMode : ℕ) (logDomain : Bool) : DetectorState :=
  ⟨⟨sampleRate, attackMs, releaseMs, analogTC, detectMode, logDomain⟩, 0⟩

/-- Modelled from the spec: `CEnvelopeDetector::setDetectMode` mutates the
configuration in place "without discarding the running envelope value". -/
def CEnvelopeDetector.setDetectMode (s : DetectorState) (m : ℕ) : DetectorState :=
  ⟨⟨s.config.sampleRate, s.config.attackMs, s.config.releaseMs,
    s.config.analogTC, m, s.config.logDomain⟩, s.envelope⟩

/-- A detector step function: `CEnvelopeDetector::detect` consumes one sample,
updates the detector state and returns the detected level.  The detector's
source file is absent, and the orchestration claims hold for any such step, so
the per-block processing below is parametrised by it. -/
def DetectorStep : Type := DetectorState → ℚ → DetectorState × ℚ

/-- The mutable fields of `CompreezorAudioProcessor` that the core reads and
writes (PluginProcessor.h lines 59-75): the public parameters, the two envelope
detectors and the gain-reduction telemetry value. -/
structure ProcessorState where
  DetGain : ℚ
  Threshold : ℚ
  AttackTime : ℚ
  ReleaseTime : ℚ
  Ratio : ℚ
  OutputGain : ℚ
  KneeWidth : ℚ
  DigitalAnalogue : Bool
  m_LeftDetector : DetectorState
  m_RightDetector : DetectorState
  GainReduction : ℚ
deriving DecidableEq, Repr

/-- `CompreezorAudioProcessor::prepareToPlay` (PluginProcessor.cpp lines
96-110): re-initialises both envelope detectors with the current attack/release
times and analogue flag, detection mode hard-coded to `DETECT_MODE_RMS` and
log-domain hard-coded to `true`.  Nothing else is modified. -/
def prepareToPlay (p : ProcessorState) (sampleRate : ℚ) : ProcessorState :=
  { p with
    m_LeftDetector := CEnvelopeDetector.init sampleRate p.AttackTime p.ReleaseTime
      p.DigitalAnalogue DETECT_MODE_RMS true
    m_RightDetector := CEnvelopeDetector.init sampleRate p.AttackTime p.ReleaseTime
      p.DigitalAnalogue DETECT_MODE_RMS true }

/-- `CompreezorAudioProcessorEditor::comboBoxChanged` (PluginEditor.cpp lines
452-463): converts the combo-box id (1..3) into a detector code (0..2) with
`jlimit (0, 2, id - 1)` and sets it as the detection mode of both detectors. -/
def comboBoxChanged (p : ProcessorState) (selectedId : ℤ) : ProcessorState :=
  let detectMode : ℕ := (min 2 (max 0 (selectedId - 1))).toNat
  { p with
    m_LeftDetector := CEnvelopeDetector.setDetectMode p.m_LeftDetector detectMode
    m_RightDetector := CEnvelopeDetector.setDetectMode p.m_RightDetector detectMode }

/-- The inner sample loop of `processBlock` (PluginProcessor.cpp lines
153-163) on one channel's data: each sample is scaled by `DetGain`, fed to the
left detector, and the output sample is `fGn * inSample * OutputGain` where
`fGn = calcCompressorGain (detectorValue, Threshold, Ratio, KneeWidth, false)`.
Returns the detector state after the channel together with the channel's output
samples. -/
noncomputable def processChannel (step : DetectorStep) (p : ProcessorState) :
    DetectorState → List ℚ → DetectorState × List ℝ
  | det, [] => (det, [])
  | det, x :: xs =>
      let inSample : ℚ := x * p.DetGain
      let r := step det inSample
      let fGn : ℝ := calcCompressorGain r.2 p.Threshold p.Ratio p.KneeWidth false
      let rest := processChannel step p r.1 xs
      (rest.1, (fGn * (inSample : ℝ) * (p.OutputGain : ℝ)) :: rest.2)

/-- The outer channel loop of `processBlock` (PluginProcessor.cpp lines
150-164): channels are processed in order, and the single left detector's state
is threaded through all of them. -/
noncomputable def processBlockChannels (step : DetectorStep) (p : ProcessorState) :
    DetectorState → List (List ℚ) → DetectorState × List (List ℝ)
  | det, [] => (det, [])
  | det, ch :: chs =>
      let r := processChannel step p det ch
      let rest := processBlockChannels step p r.1 chs
      (rest.1, r.2 :: rest.2)

/-- `CompreezorAudioProcessor::processBlock` (PluginProcessor.cpp lines
139-165) restricted to the input channels of the buffer (the clearing of
surplus output channels at lines 146-147 only zeroes channels that carry no
input).  Only `m_LeftDetector` is ever advanced; `m_RightDetector` and
`GainReduction` are not touched by the loop. -/
noncomputable def processBlock (step : DetectorStep) (p : ProcessorState)
    (buffer : List (List ℚ)) : ProcessorState × List (List ℝ) :=
  let r := processBlockChannels step p p.m_LeftDetector buffer
  ({ p with m_LeftDetector := r.1 }, r.2)

/-- The detector state reached after feeding a list of samples, each scaled by
the gain `g`, through the step function: the reference semantics for how
`processBlock` advances the left detector. -/
def detAfterSamples (step : DetectorStep) (g : ℚ) :
    DetectorState → List ℚ → DetectorState
  | det, [] => det
  | det, x :: xs => detAfterSamples step g (step det (x * g)).1 xs

/-- The channel-major concatenation of a buffer's channels: all of channel 0's
samples, then all of channel 1's, and so on — the order in which the nested
loop of `processBlock` visits the samples. -/
def joinChannels : List (List ℚ) → List ℚ
  | [] => []
  | ch :: chs => ch ++ joinChannels chs

/-! ### Helper lemmas -/

theorem compressionSlope_nonneg (r : ℚ) (hr : 1 ≤ r) : 0 ≤ 1 - 1 / r := by
  have hr0 : (0 : ℚ) < r := lt_of_lt_of_le one_pos hr
  have h1 : 1 / r ≤ 1 := by rw [div_le_one hr0]; exact hr
  linarith

theorem calcCompressorReductionDb_nonpos (d t r k : ℚ) :
    calcCompressorReductionDb d t r k ≤ 0 := by
  simp only [calcCompressorReductionDb]
  exact min_le_left _ _

theorem linearGainOfDb_pos (yG : ℚ) : 0 < linearGainOfDb yG :=
  Real.rpow_pos_of_pos (by norm_num) _

theorem linearGainOfDb_le_one (yG : ℚ) (h : yG ≤ 0) : linearGainOfDb yG ≤ 1 := by
  apply Real.rpow_le_one_of_one_le_of_nonpos (by norm_num)
  have h1 : ((yG : ℝ)) ≤ 0 := by exact_mod_cast h
  linarith

theorem linearGainOfDb_zero : linearGainOfDb 0 = 1 := by
  simp [linearGainOfDb, Real.rpow_zero]

/-! ### Claim theorems -/

/-- C1: for a finite detected level strictly above the threshold, ratio ≥ 1 and
knee width 0, `calcCompressorGain` computes the gain reduction
`(1 - 1/ratio) * (threshold - detectedLevel)` in dB (equal to its clamp at 0,
since it is ≤ 0) and returns the linear gain `10 ^ (reduction / 20)`. -/
theorem calcCompressorGain_hard_knee_above_threshold (d t r : ℚ)
    (hr : 1 ≤ r) (hd : t < d) :
    calcCompressorReductionDb d t r 0 = (1 - 1 / r) * (t - d) ∧
    (1 - 1 / r) * (t - d) ≤ 0 ∧
    calcCompressorGain d t r 0 false =
      (10 : ℝ) ^ ((((1 - 1 / r) * (t - d) : ℚ) : ℝ) / 20) := by
  have hCS : 0 ≤ 1 - 1 / r := compressionSlope_nonneg r hr
  have hprod : (1 - 1 / r) * (t - d) ≤ 0 := by nlinarith
  have hred : calcCompressorReductionDb d t r 0 = (1 - 1 / r) * (t - d) := by
    simp only [calcCompressorReductionDb]
    rw [if_neg (by rintro ⟨h0, -⟩; exact lt_irrefl 0 h0)]
    exact min_eq_right hprod
  exact ⟨hred, hprod, by simp only [calcCompressorGain, linearGainOfDb, hred]⟩

theorem calcCompressorGain_hard_knee_above_threshold_witness :
    (1 : ℚ) ≤ 4 ∧ (-20 : ℚ) < -10 ∧
    (calcCompressorReductionDb (-10) (-20) 4 0 = (1 - 1 / 4) * (-20 - (-10)) ∧
     (1 - 1 / 4) * ((-20 : ℚ) - (-10)) ≤ 0 ∧
     calcCompressorGain (-10) (-20) 4 0 false =
       (10 : ℝ) ^ ((((1 - 1 / 4) * (-20 - (-10)) : ℚ) : ℝ) / 20)) :=
  ⟨by norm_num, by norm_num,
    calcCompressorGain_hard_knee_above_threshold (-10) (-20) 4 (by norm_num) (by norm_num)⟩

/-- C4: for every detected level, threshold, ratio ≥ 1 and knee width ≥ 0, the
clamped gain reduction in dB is ≤ 0 and the returned linear gain lies in
`(0, 1]`: the compressor never boosts. -/
theorem calcCompressorGain_unit_interval (d t r k : ℚ) (hr : 1 ≤ r) (hk : 0 ≤ k) :
    calcCompressorReductionDb d t r k ≤ 0 ∧
    0 < calcCompressorGain d t r k false ∧
    calcCompressorGain d t r k false ≤ 1 :=
  ⟨calcCompressorReductionDb_nonpos d t r k,
   linearGainOfDb_pos _,
   linearGainOfDb_le_one _ (calcCompressorReductionDb_nonpos d t r k)⟩

theorem calcCompressorGain_unit_interval_witness :
    (1 : ℚ) ≤ 1 ∧ (0 : ℚ) ≤ 0 ∧
    (calcCompressorReductionDb 3 0 1 0 ≤ 0 ∧
     0 < calcCompressorGain 3 0 1 0 false ∧
     calcCompressorGain 3 0 1 0 false ≤ 1) :=
  ⟨le_refl 1, le_refl 0, calcCompressorGain_unit_interval 3 0 1 0 (le_refl 1) (le_refl 0)⟩

/-- C7: for ratio = 1 the compression slope is 0, so for every detected level,
threshold and knee width ≥ 0 the computed gain reduction is 0 dB and the
returned linear gain is exactly 1 (the computation is total: no division by
zero occurs for ratio = 1, knee = 0, threshold = 0). -/
theorem calcCompressorGain_ratio_one (d t k : ℚ) (hk : 0 ≤ k) :
    calcCompressorReductionDb d t 1 k = 0 ∧
    calcCompressorGain d t 1 k false = 1 := by
  have hred : calcCompressorReductionDb d t 1 k = 0 := by
    simp only [calcCompressorReductionDb, lagrpol2]
    norm_num
  refine ⟨hred, ?_⟩
  simp only [calcCompressorGain, hred, linearGainOfDb_zero]

theorem calcCompressorGain_ratio_one_witness :
    (0 : ℚ) ≤ 0 ∧
    (calcCompressorReductionDb 5 0 1 0 = 0 ∧ calcCompressorGain 5 0 1 0 false = 1) :=
  ⟨le_refl 0, calcCompressorGain_ratio_one 5 0 0 (le_refl 0)⟩

/-- C8: for threshold −20 dB, ratio 4, knee 0 and detected level −10 dB, the
gain reduction is `0.75 * (-20 - (-10)) = -7.5` dB and the linear gain is
`10 ^ (-7.5 / 20) = 10 ^ (-3/8)`, which lies between 0.4216 and 0.4218
(≈ 0.4217). -/
theorem calcCompressorGain_concrete_scenario :
    calcCompressorReductionDb (-10) (-20) 4 0 = -(15 / 2) ∧
    calcCompressorGain (-10) (-20) 4 0 false = (10 : ℝ) ^ (-(3 / 8) : ℝ) ∧
    (0.4216 : ℝ) < calcCompressorGain (-10) (-20) 4 0 false ∧
    calcCompressorGain (-10) (-20) 4 0 false < (0.4218 : ℝ) := by
  have hred : calcCompressorReductionDb (-10) (-20) 4 0 = -(15 / 2) := by
    simp only [calcCompressorReductionDb]
    rw [if_neg (by rintro ⟨h0, -⟩; exact lt_irrefl 0 h0)]
    norm_num [min_def]
  have hgain : calcCompressorGain (-10) (-20) 4 0 false = (10 : ℝ) ^ (-(3 / 8) : ℝ) := by
    simp only [calcCompressorGain, linearGainOfDb, hred]
    norm_num
  have hpos : (0 : ℝ) < (10 : ℝ) ^ (-(3 / 8) : ℝ) := Real.rpow_pos_of_pos (by norm_num) _
  have h8 : ((10 : ℝ) ^ (-(3 / 8) : ℝ)) ^ (8 : ℕ) = 1 / 1000 := by
    rw [← Real.rpow_natCast ((10 : ℝ) ^ (-(3 / 8) : ℝ)) 8,
      ← Real.rpow_mul (by norm_num : (0 : ℝ) ≤ 10)]
    rw [show (-(3 / 8) : ℝ) * ((8 : ℕ) : ℝ) = -((3 : ℕ) : ℝ) by push_cast; ring]
    rw [Real.rpow_neg (by norm_num), Real.rpow_natCast]
    norm_num
  have hlb : (0.4216 : ℝ) < (10 : ℝ) ^ (-(3 / 8) : ℝ) := by
    by_contra hcon
    push_neg at hcon
    have hle : ((10 : ℝ) ^ (-(3 / 8) : ℝ)) ^ (8 : ℕ) ≤ (0.4216 : ℝ) ^ (8 : ℕ) :=
      pow_le_pow_left hpos.le hcon 8
    rw [h8] at hle
    norm_num at hle
  have hub : (10 : ℝ) ^ (-(3 / 8) : ℝ) < (0.4218 : ℝ) := by
    by_contra hcon
    push_neg at hcon
    have hle : (0.4218 : ℝ) ^ (8 : ℕ) ≤ ((10 : ℝ) ^ (-(3 / 8) : ℝ)) ^ (8 : ℕ) :=
      pow_le_pow_left (by norm_num) hcon 8
    rw [h8] at hle
    norm_num at hle
  exact ⟨hred, hgain, by rw [hgain]; exact hlb, by rw [hgain]; exact hub⟩

/-- C2 counterexample: with threshold 10 dB, ratio 2, knee width 4 and detected
level 9 dB (strictly below threshold), the detected level falls inside the knee
region, the interpolated slope is negative (because the upper interpolation
point is clamped to `min 0 (threshold + knee/2) = 0`, below the lower point),
and the returned gain is `10 ^ (-1/320)`, strictly less than 1. -/
theorem calcCompressorGain_below_threshold_counterexample :
    calcCompressorGain 9 10 2 4 false ≠ 1 := by
  have hred : calcCompressorReductionDb 9 10 2 4 = -(1 / 16) := by
    simp only [calcCompressorReductionDb, lagrpol2]
    norm_num [min_def]
  have hlt : calcCompressorGain 9 10 2 4 false < 1 := by
    simp only [calcCompressorGain, linearGainOfDb, hred]
    apply Real.rpow_lt_one_of_one_lt_of_neg (by norm_num)
    norm_num
  exact ne_of_lt hlt

/-- C2 amended: for every ratio ≥ 1, knee width ≥ 0, threshold ≤ 0 and
detected level strictly below the threshold, `calcCompressorGain` returns
exactly 1 (no gain reduction).  (For positive thresholds with
`threshold + knee/2 > 0` the clamped upper knee point makes the interpolated
slope negative and the claim fails, as the counterexample shows.) -/
theorem calcCompressorGain_below_threshold (d t r k : ℚ)
    (hr : 1 ≤ r) (hk : 0 ≤ k) (ht : t ≤ 0) (hd : d < t) :
    calcCompressorGain d t r k false = 1 := by
  have hCS : 0 ≤ 1 - 1 / r := compressionSlope_nonneg r hr
  have hred : calcCompressorReductionDb d t r k = 0 := by
    simp only [calcCompressorReductionDb]
    by_cases hc : 0 < k ∧ t - k / 2 < d ∧ d < t + k / 2
    · rw [if_pos hc]
      obtain ⟨hk0, hlo, hhi⟩ := hc
      have hx : t - k / 2 < min 0 (t + k / 2) :=
        lt_min (by linarith) (by linarith)
      have hslope : 0 ≤ lagrpol2 (t - k / 2) (min 0 (t + k / 2)) 0 (1 - 1 / r) d := by
        unfold lagrpol2
        rw [zero_mul, zero_div, zero_add]
        exact div_nonneg (mul_nonneg hCS (by linarith)) (by linarith)
      exact min_eq_left (mul_nonneg hslope (by linarith))
    · rw [if_neg hc]
      exact min_eq_left (mul_nonneg hCS (by linarith))
  simp only [calcCompressorGain, hred, linearGainOfDb_zero]

theorem calcCompressorGain_below_threshold_witness :
    (1 : ℚ) ≤ 2 ∧ (0 : ℚ) ≤ 4 ∧ (-5 : ℚ) ≤ 0 ∧ (-10 : ℚ) < -5 ∧
    calcCompressorGain (-10) (-5) 2 4 false = 1 :=
  ⟨by norm_num, by norm_num, by norm_num, by norm_num,
    calcCompressorGain_below_threshold (-10) (-5) 2 4
      (by norm_num) (by norm_num) (by norm_num) (by norm_num)⟩

/-- C3 counterexample: with ratio 2, threshold −1 dB and knee width 4 dB, at
the upper knee boundary `threshold + knee/2 = 1` the soft-knee formula gives a
reduction of −4/3 dB while the hard-knee formula gives −1 dB, so the two
formulas do not yield the same gain there: the code's upper interpolation point
is `(min 0 (threshold + knee/2), CS)`, not the knee boundary itself. -/
theorem softKnee_hardKnee_boundary_counterexample :
    linearGainOfDb (softKneeReductionDb 1 (-1) 2 4) ≠
      linearGainOfDb (hardKneeReductionDb 1 (-1) 2) := by
  have hs : softKneeReductionDb 1 (-1) 2 4 = -(4 / 3) := by
    simp only [softKneeReductionDb, softKneeSlope, lagrpol2]
    norm_num [min_def]
  have hh : hardKneeReductionDb 1 (-1) 2 = -1 := by
    simp only [hardKneeReductionDb]
    norm_num [min_def]
  rw [hs, hh]
  apply ne_of_lt
  unfold linearGainOfDb
  rw [Real.rpow_lt_rpow_left_iff (by norm_num : (1 : ℝ) < 10)]
  norm_num

/-- C3 amended: for every ratio ≥ 1 and knee width > 0, the soft-knee and
hard-knee formulas agree exactly (same reduction, hence same gain) at the lower
knee boundary `threshold - knee/2` unconditionally, and at the upper knee
boundary `threshold + knee/2` whenever `threshold + knee/2 ≤ 0` (so that the
clamped upper interpolation point coincides with the knee boundary). -/
theorem softKnee_hardKnee_boundary_agreement (t r k : ℚ)
    (hr : 1 ≤ r) (hk : 0 < k) :
    (softKneeReductionDb (t - k / 2) t r k = hardKneeReductionDb (t - k / 2) t r ∧
     linearGainOfDb (softKneeReductionDb (t - k / 2) t r k) =
       linearGainOfDb (hardKneeReductionDb (t - k / 2) t r)) ∧
    (t + k / 2 ≤ 0 →
      softKneeReductionDb (t + k / 2) t r k = hardKneeReductionDb (t + k / 2) t r ∧
      linearGainOfDb (softKneeReductionDb (t + k / 2) t r k) =
        linearGainOfDb (hardKneeReductionDb (t + k / 2) t r)) := by
  have hCS : 0 ≤ 1 - 1 / r := compressionSlope_nonneg r hr
  have hslow : softKneeSlope (t - k / 2) t r k = 0 := by
    unfold softKneeSlope lagrpol2
    simp
  have hlow : softKneeReductionDb (t - k / 2) t r k = hardKneeReductionDb (t - k / 2) t r := by
    unfold softKneeReductionDb hardKneeReductionDb
    rw [hslow, zero_mul]
    rw [show t - (t - k / 2) = k / 2 by ring]
    rw [min_eq_left (le_refl 0), min_eq_left (mul_nonneg hCS (by linarith))]
  refine ⟨⟨hlow, by rw [hlow]⟩, fun hup => ?_⟩
  have hsup : softKneeSlope (t + k / 2) t r k = 1 - 1 / r := by
    unfold softKneeSlope lagrpol2
    rw [min_eq_right hup]
    rw [zero_mul, zero_div, zero_add]
    rw [show t + k / 2 - (t - k / 2) = k by ring]
    rw [mul_div_assoc, div_self (ne_of_gt hk), mul_one]
  have hupper : softKneeReductionDb (t + k / 2) t r k =
      hardKneeReductionDb (t + k / 2) t r := by
    unfold softKneeReductionDb hardKneeReductionDb
    rw [hsup]
  exact ⟨hupper, by rw [hupper]⟩

theorem softKnee_hardKnee_boundary_agreement_witness :
    (1 : ℚ) ≤ 2 ∧ (0 : ℚ) < 2 ∧
    ((softKneeReductionDb (-2 - 2 / 2) (-2) 2 2 = hardKneeReductionDb (-2 - 2 / 2) (-2) 2 ∧
      linearGainOfDb (softKneeReductionDb (-2 - 2 / 2) (-2) 2 2) =
        linearGainOfDb (hardKneeReductionDb (-2 - 2 / 2) (-2) 2)) ∧
     ((-2 : ℚ) + 2 / 2 ≤ 0 →
       softKneeReductionDb (-2 + 2 / 2) (-2) 2 2 = hardKneeReductionDb (-2 + 2 / 2) (-2) 2 ∧
       linearGainOfDb (softKneeReductionDb (-2 + 2 / 2) (-2) 2 2) =
         linearGainOfDb (hardKneeReductionDb (-2 + 2 / 2) (-2) 2))) :=
  ⟨by norm_num, by norm_num,
    softKnee_hardKnee_boundary_agreement (-2) 2 2 (by norm_num) (by norm_num)⟩

/-! ### Block-processing lemmas -/

theorem detAfterSamples_append (step : DetectorStep) (g : ℚ) :
    ∀ (xs ys : List ℚ) (det : DetectorState),
      detAfterSamples step g det (xs ++ ys) =
        detAfterSamples step g (detAfterSamples step g det xs) ys
  | [], ys, det => rfl
  | x :: xs, ys, det => by
    simp only [List.cons_append, detAfterSamples]
    exact detAfterSamples_append step g xs ys _

theorem processChannel_fst (step : DetectorStep) (p : ProcessorState) :
    ∀ (ch : List ℚ) (det : DetectorState),
      (processChannel step p det ch).1 = detAfterSamples step p.DetGain det ch
  | [], det => rfl
  | x :: xs, det => by
    simp only [processChannel, detAfterSamples]
    exact processChannel_fst step p xs _

theorem processChannel_get (step : DetectorStep) (p : ProcessorState) :
    ∀ (ch : List ℚ) (det : DetectorState) (i : ℕ),
      (processChannel step p det ch).2.get? i =
        (ch.get? i).map (fun x =>
          calcCompressorGain
              (step (detAfterSamples step p.DetGain det (ch.take i)) (x * p.DetGain)).2
              p.Threshold p.Ratio p.KneeWidth false *
            ((x * p.DetGain : ℚ) : ℝ) * (p.OutputGain : ℝ))
  | [], det, i => by simp [processChannel]
  | x :: xs, det, 0 => by
    simp [processChannel, detAfterSamples]
  | x :: xs, det, i + 1 => by
    simp only [processChannel, List.get?, List.take_succ_cons]
    rw [processChannel_get step p xs _ i]
    simp only [detAfterSamples]

theorem processBlockChannels_fst (step : DetectorStep) (p : ProcessorState) :
    ∀ (chans : List (List ℚ)) (det : DetectorState),
      (processBlockChannels step p det chans).1 =
        detAfterSamples step p.DetGain det (joinChannels chans)
  | [], det => rfl
  | ch :: chs, det => by
    simp only [processBlockChannels, joinChannels]
    rw [processBlockChannels_fst step p chs _, processChannel_fst,
      detAfterSamples_append]

theorem processBlockChannels_get (step : DetectorStep) (p : ProcessorState) :
    ∀ (chans : List (List ℚ)) (det : DetectorState) (c : ℕ),
      (processBlockChannels step p det chans).2.get? c =
        (chans.get? c).map (fun ch =>
          (processChannel step p
            (detAfterSamples step p.DetGain det (joinChannels (chans.take c))) ch).2)
  | [], det, c => by simp [processBlockChannels]
  | ch :: chs, det, 0 => by
    simp [processBlockChannels, joinChannels, detAfterSamples]
  | ch :: chs, det, c + 1 => by
    simp only [processBlockChannels, List.get?, List.take_succ_cons, joinChannels]
    rw [processBlockChannels_get step p chs _ c, processChannel_fst]
    simp only [← detAfterSamples_append]

/-! ### Remaining claim theorems -/

/-- C5: for every channel index `c` and sample index `i`, the output sample of
`processBlock` equals `g * (DetGain * input) * OutputGain`, where
`g = calcCompressorGain (level, Threshold, Ratio, KneeWidth, false)` and
`level` is the envelope detector's output on the gain-adjusted sample
`input * DetGain`, the detector having previously consumed the gain-adjusted
samples of all earlier channels and of this channel's earlier samples. -/
theorem processBlock_sample_formula (step : DetectorStep) (p : ProcessorState)
    (buffer : List (List ℚ)) (c i : ℕ) :
    ((processBlock step p buffer).2.get? c).bind (fun outc => outc.get? i) =
      (buffer.get? c).bind (fun ch => (ch.get? i).map (fun x =>
        calcCompressorGain
            (step (detAfterSamples step p.DetGain p.m_LeftDetector
                (joinChannels (buffer.take c) ++ ch.take i)) (x * p.DetGain)).2
            p.Threshold p.Ratio p.KneeWidth false *
          ((x * p.DetGain : ℚ) : ℝ) * (p.OutputGain : ℝ))) := by
  cases hbc : buffer.get? c with
  | none =>
    simp only [processBlock]
    rw [processBlockChannels_get, hbc]
    simp
  | some ch =>
    simp only [processBlock]
    rw [processBlockChannels_get, hbc]
    simp only [Option.map_some', Option.some_bind]
    rw [processChannel_get]
    simp only [← detAfterSamples_append]

/-- C9: `processBlock` never advances `m_RightDetector` (its state after the
call is its state before), and the single `m_LeftDetector` is advanced by the
gain-adjusted samples of every input channel in channel order: its final state
is the fold of the detector step over the channel-major concatenation of the
whole buffer, not over the first channel alone. -/
theorem processBlock_detector_effects (step : DetectorStep) (p : ProcessorState)
    (buffer : List (List ℚ)) :
    (processBlock step p buffer).1.m_RightDetector = p.m_RightDetector ∧
    (processBlock step p buffer).1.m_LeftDetector =
      detAfterSamples step p.DetGain p.m_LeftDetector (joinChannels buffer) := by
  refine ⟨rfl, ?_⟩
  simp only [processBlock]
  exact processBlockChannels_fst step p buffer p.m_LeftDetector

/-- C6: contrary to the header comment on `GainReduction` (PluginProcessor.h
lines 72-75, "updated every processBlock call") and to the spec's telemetry
contract, `processBlock` never writes the `GainReduction` field: after any
invocation it still holds its previous value. -/
theorem processBlock_gainReduction_unchanged (step : DetectorStep)
    (p : ProcessorState) (buffer : List (List ℚ)) :
    (processBlock step p buffer).1.GainReduction = p.GainReduction := rfl

/-- C10: `prepareToPlay` re-initialises both detectors with detection mode
hard-coded to `DETECT_MODE_RMS` and log-domain hard-coded to `true`, erasing
any mode previously selected through the editor's combo box
(`comboBoxChanged`); only the attack time, release time and analogue/digital
flag carry over from the current parameter values. -/
theorem prepareToPlay_forces_rms (p : ProcessorState) (sampleRate : ℚ)
    (selectedId : ℤ) :
    (prepareToPlay (comboBoxChanged p selectedId) sampleRate).m_LeftDetector.config.detectMode
        = DETECT_MODE_RMS ∧
    (prepareToPlay (comboBoxChanged p selectedId) sampleRate).m_RightDetector.config.detectMode
        = DETECT_MODE_RMS ∧
    (prepareToPlay (comboBoxChanged p selectedId) sampleRate).m_LeftDetector.config.logDomain
        = true ∧
    (prepareToPlay (comboBoxChanged p selectedId) sampleRate).m_RightDetector.config.logDomain
        = true ∧
    (prepareToPlay (comboBoxChanged p selectedId) sampleRate).m_LeftDetector
        = (prepareToPlay p sampleRate).m_LeftDetector ∧
    (prepareToPlay (comboBoxChanged p selectedId) sampleRate).m_RightDetector
        = (prepareToPlay p sampleRate).m_RightDetector ∧
    (prepareToPlay p sampleRate).m_LeftDetector.config.attackMs = p.AttackTime ∧
    (prepareToPlay p sampleRate).m_LeftDetector.config.releaseMs = p.ReleaseTime ∧
    (prepareToPlay p sampleRate).m_LeftDetector.config.analogTC = p.DigitalAnalogue :=
  ⟨rfl, rfl, rfl, rfl, rfl, rfl, rfl, rfl, rfl⟩

end Compreezor
